import Mathlib

/-!
A shallow embedding of the extension-side engine bridge
(`packages/extension/src/engineClient.ts`, class `EngineClient`) of the
Workflow-Agent repository, together with theorems settling the frozen
claims about it.

Modelling conventions:
* JavaScript numbers that carry progress percentages are modelled as `Int`
  (all protocol examples and bounds are integral).
* Promises are modelled by explicit registries plus an effect log: settling
  a pending operation emits a `resolve…`/`reject…` effect; a promise that
  was already settled ignores later settlement attempts (for queued pings
  this is tracked by the `settledAs` field).
* `Error` objects thrown/reported by the client are modelled by the
  `EngineError` inductive; each constructor corresponds to one `new Error`
  site in the source (the constructor names follow the design taxonomy:
  transport, busy, liveness timeout, worker-reported, …).
* Writes to the child process stdin (`sendMessage`) are modelled as
  `Effect.writeOut` effects carrying the outbound message; a write only
  happens when the child exists and its stdin is writable, otherwise
  `sendMessage` throws, modelled as `Except.error`.
-/

namespace WorkflowAgent

/-- `interface EngineGeneratedFile` of engineClient.ts. -/
structure EngineGeneratedFile where
  path : String
  content : String
deriving DecidableEq, Repr

/-- `type EngineChatAction` of engineClient.ts (payloads kept as strings;
no claim inspects them). -/
inductive EngineChatAction where
  | newWorkflow
  | addNode (nodeType : String) (nodeId : Option String)
  | connect (fromId : String) (toId : String)
  | setRules (rules : String)
  | runWorkflowAction
deriving DecidableEq, Repr

/-- `interface RunWorkflowResult` of engineClient.ts. -/
structure RunWorkflowResult where
  files : List EngineGeneratedFile
  warnings : Option (List String)
  cancelled : Bool
deriving DecidableEq, Repr

/-- The `new Error(...)` values produced by the client, one constructor per
source site, named after the design taxonomy. -/
inductive EngineError where
  /-- "The workflow engine is already busy with another run." -/
  | busy
  /-- Transport-level failure: spawn failure, process exit, or a write to a
  missing/closed channel; carries the source message text. -/
  | transport (message : String)
  /-- "Timed out waiting for engine ping response." -/
  | livenessTimeout
  /-- "Engine did not signal readiness." -/
  | handshakeTimeout
  /-- "Engine stopped before signalling readiness." -/
  | handshakeAborted
  /-- "Engine client is disposed." / "Engine client disposed." -/
  | clientDisposed
  /-- An ERROR message from the worker; carries the reported message. -/
  | workerReported (message : String)
  /-- "Engine requested input but interactive flows are not yet supported." -/
  | unsupportedInteraction
deriving DecidableEq, Repr

/-- `interface PendingRun` of engineClient.ts (continuations live in the
effect log, so only the data fields are kept). -/
structure PendingRun where
  correlationId : String
  lastPct : Option Int
  cancelledByUser : Bool
deriving DecidableEq, Repr

/-- How a queued ping promise was first settled, if it was. -/
inductive PingOutcome where
  | ok
  | timedOut
deriving DecidableEq, Repr

/-- `interface PendingPing` of engineClient.ts.  `pid` identifies the
promise; `settledAs` records its first settlement (a promise settles at
most once, later resolve/reject calls are no-ops). -/
structure PendingPing where
  pid : Nat
  settledAs : Option PingOutcome
deriving DecidableEq, Repr

/-- Abstraction of the `readyPromise`/`readyResolver`/`readyRejector`
fields: `notStarted` = no promise, `awaitingReady` = promise with resolver
and rejector installed, `ready` = promise resolved. -/
inductive ReadyState where
  | notStarted
  | awaitingReady
  | ready
deriving DecidableEq, Repr

/-- The mutable fields of `class EngineClient`.  `pendingChats` keeps the
correlation ids of the map entries in insertion order. -/
structure ClientState where
  childAlive : Bool
  stdinWritable : Bool
  stdoutBuffer : List Char
  readyState : ReadyState
  activeRun : Option PendingRun
  pendingPings : List PendingPing
  pendingChats : List String
  disposed : Bool
  nextPingId : Nat
deriving DecidableEq, Repr

/-- Outbound wire messages (`RunWorkflowMessage`, `CancelMessage`,
`PingMessage`, `ChatRequestMessage`); the run request keeps its yaml
payload, the engine-document payload is elided (no claim inspects it). -/
inductive OutboundMessage where
  | ping
  | cancel (correlationId : String)
  | runWorkflow (correlationId : String) (yaml : String)
  | chatRequest (correlationId : String) (prompt : String)
deriving DecidableEq, Repr

/-- `type EngineInboundMessage` of engineClient.ts. -/
inductive EngineInboundMessage where
  | ready (message : Option String)
  | pong
  | log (level : Option String) (message : String)
  | progress (correlationId : String) (step : Option String) (pct : Option Int)
  | complete (correlationId : String) (files : List EngineGeneratedFile)
      (warnings : Option (List String)) (cancelled : Option Bool)
  | error (correlationId : Option String) (message : String)
  | askUser (correlationId : String) (question : String)
  | chatResponse (correlationId : String) (reply : List String)
      (actions : List EngineChatAction) (followUps : Option (List String))
deriving DecidableEq, Repr

/-- Outcome of `JSON.parse` plus discriminant recognition on one raw line:
`malformed` = `JSON.parse` threw, `unknownType` = parsed but the `switch`
falls to its `default` arm, `msg` = a recognised message. -/
inductive ParsedLine where
  | malformed (raw : String)
  | unknownType (raw : String)
  | msg (m : EngineInboundMessage)
deriving DecidableEq, Repr

/-- Observable effects of a step: output-channel log lines, stdin writes,
promise settlements and progress reports. -/
inductive Effect where
  | logLine (text : String)
  | writeOut (message : OutboundMessage)
  | resolveRun (result : RunWorkflowResult)
  | rejectRun (error : EngineError)
  | progressReport (message : String) (increment : Option Int)
  | resolvePing (pid : Nat)
  | rejectPing (pid : Nat) (error : EngineError)
  | resolveChat (correlationId : String)
  | rejectChat (correlationId : String) (error : EngineError)
  | rejectHandshake (error : EngineError)
  | showErrorMessage (message : String)
deriving DecidableEq, Repr

/-- Is the effect a write on the outbound channel? -/
def Effect.isWrite : Effect → Bool
  | .writeOut _ => true
  | _ => false

/-- `Math.max` on the modelled numbers. -/
def jsMax (a b : Int) : Int := if a ≤ b then b else a

/-- Models `parsed.message || "Engine reported an error."` (JS falsiness of
the empty string). -/
def errText (message : String) : String :=
  if message = "" then "Engine reported an error." else message

/-- Models `!parsed.correlationId` (absent or empty string is falsy). -/
def cidFalsy : Option String → Bool
  | none => true
  | some c => c = ""

/-- `EngineClient.sendMessage` (lines 472-480): throws when the child is
absent or its stdin is not writable, otherwise writes one frame. -/
def sendMessage (s : ClientState) (m : OutboundMessage) :
    Except EngineError (List Effect) :=
  if s.childAlive && s.stdinWritable then .ok [.writeOut m]
  else .error (.transport "Engine process is not available.")

/-- `EngineClient.handleMessage` (lines 365-470): the parse guard and the
dispatch switch, acting on one already-framed line. -/
def handleMessage (s : ClientState) (line : ParsedLine) :
    ClientState × List Effect :=
  match line with
  | .malformed raw =>
      (s, [.logLine ("Received malformed JSON from engine: " ++ raw)])
  | .unknownType raw =>
      (s, [.logLine ("Received unsupported message type: " ++ raw)])
  | .msg m =>
    match m with
    | .ready _ =>
        (match s.readyState with
         | .awaitingReady => {s with readyState := .ready}
         | _ => s,
         [.logLine "Engine reported READY."])
    | .pong =>
        match s.pendingPings with
        | [] => (s, [])
        | p :: rest =>
            ({s with pendingPings := rest},
             if p.settledAs.isNone then [.resolvePing p.pid] else [])
    | .log level message =>
        (s, [.logLine ("[" ++ level.getD "info" ++ "] " ++ message)])
    | .progress cid step pct =>
        match s.activeRun with
        | some run =>
            if run.correlationId = cid then
              let increment : Option Int :=
                match pct with
                | some p =>
                    if 0 ≤ p ∧ p ≤ 100 then
                      some (jsMax 0 (p - run.lastPct.getD 0))
                    else none
                | none => none
              let run2 : PendingRun :=
                match pct with
                | some p => {run with lastPct := some p}
                | none => run
              ({s with activeRun := some run2},
               [.progressReport (step.getD "Working...") increment])
            else (s, [])
        | none => (s, [])
    | .complete cid files warnings cancelled =>
        match s.activeRun with
        | some run =>
            if run.correlationId = cid then
              ({s with activeRun := none},
               [.resolveRun ⟨files, warnings, cancelled.getD false⟩])
            else (s, [])
        | none => (s, [])
    | .error cid message =>
        match s.activeRun with
        | some run =>
            if cidFalsy cid || cid = some run.correlationId then
              ({s with activeRun := none},
               [.rejectRun (.workerReported (errText message))])
            else if cid.any (fun c => c ≠ "" && s.pendingChats.contains c) then
              ({s with pendingChats := s.pendingChats.erase (cid.getD "")},
               [.rejectChat (cid.getD "") (.workerReported (errText message))])
            else (s, [.showErrorMessage (errText message)])
        | none =>
            if cid.any (fun c => c ≠ "" && s.pendingChats.contains c) then
              ({s with pendingChats := s.pendingChats.erase (cid.getD "")},
               [.rejectChat (cid.getD "") (.workerReported (errText message))])
            else (s, [.showErrorMessage (errText message)])
    | .chatResponse cid _reply _actions _followUps =>
        if s.pendingChats.contains cid then
          ({s with pendingChats := s.pendingChats.erase cid},
           [.resolveChat cid])
        else (s, [])
    | .askUser cid _question =>
        match s.activeRun with
        | some run =>
            if run.correlationId = cid then
              ({s with activeRun := none},
               [.logLine "Engine requested user input, which is not supported in this sprint.",
                .rejectRun .unsupportedInteraction])
            else
              (s, [.logLine "Engine requested user input, which is not supported in this sprint."])
        | none =>
            (s, [.logLine "Engine requested user input, which is not supported in this sprint."])

/-- Process a list of framed lines in order, accumulating effects. -/
def processMessages (s : ClientState) : List ParsedLine → ClientState × List Effect
  | [] => (s, [])
  | l :: rest =>
      let p := handleMessage s l
      let q := processMessages p.1 rest
      (q.1, p.2 ++ q.2)

/-- Process `n` PONG replies in sequence. -/
def processPongs (s : ClientState) : Nat → ClientState × List Effect
  | 0 => (s, [])
  | n + 1 =>
      let p := handleMessage s (.msg .pong)
      let q := processPongs p.1 n
      (q.1, p.2 ++ q.2)

/-- `EngineClient.ping` (lines 191-201), after `ensureStarted` succeeded:
enqueues a `PendingPing` at the tail (with its 5000 ms timeout armed) and
then writes the PING frame; a failing write throws out of `ping` but the
queue entry stays registered, exactly as in the source. -/
def pingCall (s : ClientState) :
    ClientState × List Effect × Except EngineError Unit :=
  let s1 : ClientState :=
    {s with pendingPings := s.pendingPings ++ [⟨s.nextPingId, none⟩],
            nextPingId := s.nextPingId + 1}
  match sendMessage s1 .ping with
  | .ok effs => (s1, effs, .ok ())
  | .error e => (s1, [], .error e)

/-- The `setTimeout` callback armed by `ping` (line 194): rejects exactly
that queue entry if it is still unsettled; the entry is not removed from
the queue. -/
def pingTimeoutFires (s : ClientState) (pid : Nat) : ClientState × List Effect :=
  ({s with pendingPings :=
      s.pendingPings.map fun p =>
        if p.pid = pid && p.settledAs.isNone
        then {p with settledAs := some .timedOut} else p},
   if s.pendingPings.any (fun p => p.pid = pid && p.settledAs.isNone)
   then [.rejectPing pid .livenessTimeout] else [])

/-- The `token.onCancellationRequested` callback of `runWorkflow`
(lines 176-181): if the run with this token is still active, set
`cancelledByUser` and send a CANCEL frame; the run is not settled here. -/
def onCancellationRequested (s : ClientState) (cid : String) :
    ClientState × List Effect :=
  match s.activeRun with
  | some run =>
      if run.correlationId = cid then
        let s1 : ClientState :=
          {s with activeRun := some {run with cancelledByUser := true}}
        match sendMessage s1 (.cancel cid) with
        | .ok effs => (s1, effs)
        | .error _ => (s1, [])
      else (s, [])
  | none => (s, [])

/-- Result of a `runWorkflow` call in the model. -/
inductive RunCallOutcome where
  /-- The busy guard threw `BusyError`. -/
  | busyRejected
  /-- The run was registered and the RUN_WORKFLOW frame written; the call
  is now pending on the worker. -/
  | pending
  /-- A transport-level throw (`sendMessage`) escaped the call. -/
  | failed (e : EngineError)
deriving DecidableEq, Repr

/-- `EngineClient.runWorkflow` (lines 142-189) on a client whose
`ensureStarted` already succeeded, executed to the point where its awaits
settle: the embedded `ping` writes its frame and the worker answers it
immediately (the PONG is processed before the call resumes), then the busy
guard runs, then a fresh run is registered and the RUN_WORKFLOW frame is
written. -/
def runWorkflowCall (s : ClientState) (cid : String) (yaml : String) :
    ClientState × List Effect × RunCallOutcome :=
  let ping1 := pingCall s
  match ping1.2.2 with
  | .error e => (ping1.1, ping1.2.1, .failed e)
  | .ok _ =>
      let pong := handleMessage ping1.1 (.msg .pong)
      let s2 := pong.1
      let effs := ping1.2.1 ++ pong.2
      if s2.activeRun.isSome then (s2, effs, .busyRejected)
      else
        let s3 : ClientState :=
          {s2 with activeRun := some ⟨cid, none, false⟩}
        match sendMessage s3 (.runWorkflow cid yaml) with
        | .ok e3 =>
            (s3, effs ++ [.logLine "Starting workflow run..."] ++ e3, .pending)
        | .error e =>
            (s3, effs ++ [.logLine "Starting workflow run..."], .failed e)

/-- Result of a `sendChatPrompt` call in the model. -/
inductive ChatCallOutcome where
  | pending
  | rejected (e : EngineError)
deriving DecidableEq, Repr

/-- The registration and send step of `EngineClient.sendChatPrompt`
(lines 224-232): register the `PendingChat`, try to write the frame, and on
a throw delete the entry again and reject with that error. -/
def sendChatPromptSend (s : ClientState) (cid : String) (prompt : String) :
    ClientState × List Effect × ChatCallOutcome :=
  let s1 : ClientState := {s with pendingChats := s.pendingChats ++ [cid]}
  match sendMessage s1 (.chatRequest cid prompt) with
  | .ok effs => (s1, effs, .pending)
  | .error e =>
      ({s1 with pendingChats := s1.pendingChats.erase cid}, [], .rejected e)

/-- `EngineClient.teardown` (lines 324-351): drop the child, reset the
ready handshake (rejecting its waiter when one is installed), discard the
partial-line buffer, and drain both pending registries with transport
errors (a reject on an already-settled ping promise is a no-op). -/
def teardown (s : ClientState) : ClientState × List Effect :=
  ({s with childAlive := false, stdinWritable := false,
           readyState := .notStarted, stdoutBuffer := [],
           pendingPings := [], pendingChats := []},
   (if s.readyState = .awaitingReady
    then [Effect.rejectHandshake .handshakeAborted] else [])
   ++ (s.pendingPings.filterMap fun p =>
        if p.settledAs.isNone
        then some (.rejectPing p.pid (.transport "Engine process exited."))
        else none)
   ++ (s.pendingChats.map fun c =>
        .rejectChat c (.transport "Engine process exited.")))

/-- The `exit` handler installed by `ensureStarted` (lines 287-298):
reject the in-flight run (if any) and tear the handle down. -/
def onProcessExit (s : ClientState) : ClientState × List Effect :=
  let step1 : ClientState × List Effect :=
    match s.activeRun with
    | some _ =>
        ({s with activeRun := none},
         [.rejectRun (.transport "Engine process exited before completion.")])
    | none => (s, [])
  let step2 := teardown step1.1
  (step2.1, step1.2 ++ step2.2)

/-- The `error` handler installed by `ensureStarted` (lines 278-285):
like `onProcessExit` but with the process-error message. -/
def onProcessError (s : ClientState) (message : String) :
    ClientState × List Effect :=
  let step1 : ClientState × List Effect :=
    match s.activeRun with
    | some _ =>
        ({s with activeRun := none},
         [.rejectRun (.transport ("Engine process failed: " ++ message))])
    | none => (s, [])
  let step2 := teardown step1.1
  (step2.1, [.logLine ("Engine process error: " ++ message)] ++ step1.2 ++ step2.2)

/-- `EngineClient.ensureStarted` (lines 262-322) up to its spawn: throws
when disposed, reuses the live child and its ready promise, and otherwise
spawns a fresh child with an empty stdout buffer and an armed handshake. -/
def ensureStarted (s : ClientState) : Except EngineError ClientState :=
  if s.disposed then .error .clientDisposed
  else if s.childAlive && s.readyState ≠ .notStarted then .ok s
  else .ok {s with stdoutBuffer := [], childAlive := true,
                   stdinWritable := true, readyState := .awaitingReady}

/-- The state of a freshly constructed `EngineClient`. -/
def freshClient : ClientState :=
  { childAlive := false, stdinWritable := false, stdoutBuffer := [],
    readyState := .notStarted, activeRun := none, pendingPings := [],
    pendingChats := [], disposed := false, nextPingId := 0 }

/-- A started, handshaken, idle client used for concrete scenarios. -/
def readyClient : ClientState :=
  { childAlive := true, stdinWritable := true, stdoutBuffer := [],
    readyState := .ready, activeRun := none, pendingPings := [],
    pendingChats := [], disposed := false, nextPingId := 0 }

/-- The JS `String.prototype.trim` whitespace test, restricted to the ASCII
whitespace characters that can occur between line frames. -/
def isJsWhitespace (c : Char) : Bool :=
  c = ' ' || c = '\t' || c = '\n' || c = '\r' ||
  c = '\x0b' || c = '\x0c'

/-- `raw.trim()` on the character-list view of a string. -/
def trimChars (l : List Char) : List Char :=
  ((l.dropWhile isJsWhitespace).reverse.dropWhile isJsWhitespace).reverse

/-- The line-extraction loop of `EngineClient.processStdout`
(lines 353-363) on the whole buffer: returns the complete (untrimmed)
lines in order and the unterminated remainder. -/
def processBuffer : List Char → List (List Char) × List Char
  | [] => ([], [])
  | c :: cs =>
      let p := processBuffer cs
      if c = '\n' then ([] :: p.1, p.2)
      else
        match p.1 with
        | [] => ([], c :: p.2)
        | l :: ls => ((c :: l) :: ls, p.2)

/-- The `stdoutBuffer` field viewed as the Frame Reader component. -/
structure FrameReader where
  buffer : List Char
deriving DecidableEq, Repr

/-- One `data` event (lines 300-303) followed by `processStdout`
(lines 353-363): append the chunk, split off every complete line, trim it,
and yield it when non-empty; the remainder stays buffered. -/
def feedFrame (fr : FrameReader) (chunk : List Char) :
    FrameReader × List (List Char) :=
  let p := processBuffer (fr.buffer ++ chunk)
  (⟨p.2⟩, (p.1.map trimChars).filter fun l => !l.isEmpty)

/-- Feed a sequence of chunks, concatenating the yielded lines. -/
def feedAll (fr : FrameReader) : List (List Char) → FrameReader × List (List Char)
  | [] => (fr, [])
  | c :: cs =>
      let p := feedFrame fr c
      let q := feedAll p.1 cs
      (q.1, p.2 ++ q.2)

/-- One stdout `data` event of the full client: frame the chunk against
`stdoutBuffer` and dispatch every yielded line through `handleMessage`
under the given parse oracle (`JSON.parse` plus discriminant
recognition). -/
def onStdoutData (parse : List Char → ParsedLine) (s : ClientState)
    (chunk : List Char) : ClientState × List Effect :=
  let p := feedFrame ⟨s.stdoutBuffer⟩ chunk
  processMessages {s with stdoutBuffer := p.1.buffer} (p.2.map parse)

/-- The increments actually delivered to the progress sink
(`progress.report` calls whose `increment` field is defined). -/
def reportedIncrements (effs : List Effect) : List Int :=
  effs.filterMap fun e =>
    match e with
    | .progressReport _ (some i) => some i
    | _ => none

/-- Adjacent-pairs monotonicity of a percentage sequence. -/
def nondecreasing : List Int → Bool
  | [] => true
  | [_] => true
  | a :: b :: rest => a ≤ b && nondecreasing (b :: rest)

/-- Closed form of the increments the PROGRESS case reports for a matching
run, starting from a given `lastPct`: one `max(0, p - last)` per in-range
percentage, `lastPct` updated by every numeric percentage. -/
def incsFrom (last : Option Int) : List Int → List Int
  | [] => []
  | p :: rest =>
      (if 0 ≤ p ∧ p ≤ 100 then [jsMax 0 (p - last.getD 0)] else [])
        ++ incsFrom (some p) rest

/-- The progress message carrying percentage `p` for correlation id `cid`. -/
def progressMsg (cid : String) (p : Int) : ParsedLine :=
  .msg (.progress cid none (some p))

/-- A ready client with one pending run, used for concrete scenarios. -/
def busyClient : ClientState :=
  {readyClient with activeRun := some ⟨"run-1", none, false⟩}

/-- Claim C10: an inbound message that matches no pending operation — a
PONG while the probe queue is empty, or a PROGRESS, COMPLETE or
CHAT_RESPONSE whose correlation token matches neither the active run nor
any pending chat — leaves the whole client state unchanged and produces no
effect at all (in particular at most a log). -/
theorem unmatched_inbound_is_noop :
    (∀ s : ClientState, s.pendingPings = [] →
      handleMessage s (.msg .pong) = (s, [])) ∧
    (∀ (s : ClientState) (cid : String) (step : Option String) (pct : Option Int),
      (∀ run, s.activeRun = some run → run.correlationId ≠ cid) →
      handleMessage s (.msg (.progress cid step pct)) = (s, [])) ∧
    (∀ (s : ClientState) (cid : String) (files : List EngineGeneratedFile)
        (warnings : Option (List String)) (cancelled : Option Bool),
      (∀ run, s.activeRun = some run → run.correlationId ≠ cid) →
      handleMessage s (.msg (.complete cid files warnings cancelled)) = (s, [])) ∧
    (∀ (s : ClientState) (cid : String) (reply : List String)
        (actions : List EngineChatAction) (followUps : Option (List String)),
      cid ∉ s.pendingChats →
      handleMessage s (.msg (.chatResponse cid reply actions followUps)) = (s, [])) := by
  refine ⟨?_, ?_, ?_, ?_⟩
  · intro s h
    simp [handleMessage, h]
  · intro s cid step pct h
    match hr : s.activeRun with
    | none => simp [handleMessage, hr]
    | some run => simp [handleMessage, hr, h run hr]
  · intro s cid files warnings cancelled h
    match hr : s.activeRun with
    | none => simp [handleMessage, hr]
    | some run => simp [handleMessage, hr, h run hr]
  · intro s cid reply actions followUps h
    simp [handleMessage, h]

theorem unmatched_inbound_is_noop_witness :
    handleMessage readyClient (.msg .pong) = (readyClient, []) ∧
    handleMessage busyClient (.msg (.progress "other" none (some 50)))
      = (busyClient, []) ∧
    handleMessage busyClient (.msg (.complete "other" [] none none))
      = (busyClient, []) ∧
    handleMessage readyClient (.msg (.chatResponse "other" [] [] none))
      = (readyClient, []) := by
  refine ⟨?_, ?_, ?_, ?_⟩
  · exact unmatched_inbound_is_noop.1 readyClient (by decide)
  · exact unmatched_inbound_is_noop.2.1 busyClient "other" none (some 50)
      (by intro run hr; simp [busyClient, readyClient] at hr; simp [← hr])
  · exact unmatched_inbound_is_noop.2.2.1 busyClient "other" [] none none
      (by intro run hr; simp [busyClient, readyClient] at hr; simp [← hr])
  · exact unmatched_inbound_is_noop.2.2.2 readyClient "other" [] [] none (by decide)

/-- Claim C9: when the write of a chat request fails (child absent or
stdin not writable), the just-registered PendingChat entry is removed
again before the promise rejects with the transport error: the chat
registry is unchanged, the call rejects, and nothing is written. -/
theorem failed_chat_send_leaves_registry_unchanged :
    ∀ (s : ClientState) (cid prompt : String),
      cid ∉ s.pendingChats →
      (s.childAlive = false ∨ s.stdinWritable = false) →
      (sendChatPromptSend s cid prompt).1.pendingChats = s.pendingChats ∧
      (sendChatPromptSend s cid prompt).2.2 =
        .rejected (.transport "Engine process is not available.") ∧
      (sendChatPromptSend s cid prompt).2.1 = [] := by
  intro s cid prompt hmem hfail
  have hsend : (s.childAlive && s.stdinWritable) = false := by
    rcases hfail with h | h <;> simp [h]
  have herase : (s.pendingChats ++ [cid]).erase cid = s.pendingChats := by
    rw [List.erase_append_right _ hmem, List.erase_cons_head, List.append_nil]
  refine ⟨?_, ?_, ?_⟩ <;>
    simp [sendChatPromptSend, sendMessage, hsend, herase]

theorem failed_chat_send_leaves_registry_unchanged_witness :
    "c1" ∉ freshClient.pendingChats ∧
    (sendChatPromptSend freshClient "c1" "hello").1.pendingChats
        = freshClient.pendingChats ∧
    (sendChatPromptSend freshClient "c1" "hello").2.2 =
      .rejected (.transport "Engine process is not available.") ∧
    (sendChatPromptSend freshClient "c1" "hello").2.1 = [] := by
  refine ⟨by decide, ?_⟩
  exact failed_chat_send_leaves_registry_unchanged freshClient "c1" "hello"
    (by decide) (Or.inl (by decide))

/-- Claim C3: while a run is pending, the cancellation callback sends a
CANCEL frame carrying the same correlation token, sets the
cancellation-requested flag and does not settle the run locally; when the
worker completion with cancelled = true later arrives for that token, the
run resolves (is not rejected) with the cancelled flag true. -/
theorem cancellation_resolves_with_cancelled_flag :
    ∀ (s : ClientState) (run : PendingRun) (files : List EngineGeneratedFile)
      (warnings : Option (List String)),
      s.activeRun = some run →
      s.childAlive = true → s.stdinWritable = true →
      (onCancellationRequested s run.correlationId).2 =
        [.writeOut (.cancel run.correlationId)] ∧
      (onCancellationRequested s run.correlationId).1.activeRun =
        some {run with cancelledByUser := true} ∧
      (handleMessage (onCancellationRequested s run.correlationId).1
        (.msg (.complete run.correlationId files warnings (some true)))).2 =
        [.resolveRun ⟨files, warnings, true⟩] ∧
      (handleMessage (onCancellationRequested s run.correlationId).1
        (.msg (.complete run.correlationId files warnings (some true)))).1.activeRun
        = none := by
  intro s run files warnings hr ha hw
  have hstep : onCancellationRequested s run.correlationId =
      ({s with activeRun := some {run with cancelledByUser := true}},
       [.writeOut (.cancel run.correlationId)]) := by
    simp [onCancellationRequested, hr, sendMessage, ha, hw]
  refine ⟨by rw [hstep], by rw [hstep], ?_, ?_⟩ <;>
    · rw [hstep]
      simp [handleMessage]

theorem cancellation_resolves_with_cancelled_flag_witness :
    (onCancellationRequested busyClient "run-1").2 =
      [.writeOut (.cancel "run-1")] ∧
    (onCancellationRequested busyClient "run-1").1.activeRun =
      some ⟨"run-1", none, true⟩ ∧
    (handleMessage (onCancellationRequested busyClient "run-1").1
      (.msg (.complete "run-1" [] none (some true)))).2 =
      [.resolveRun ⟨[], none, true⟩] ∧
    (handleMessage (onCancellationRequested busyClient "run-1").1
      (.msg (.complete "run-1" [] none (some true)))).1.activeRun = none := by
  exact cancellation_resolves_with_cancelled_flag busyClient
    ⟨"run-1", none, false⟩ [] none (by decide) (by decide) (by decide)

/-- Claim C1, counterexample: on a client whose run is pending, a second
`runWorkflow` call is rejected busy, yet bytes are written on the channel
on behalf of that call — its embedded liveness probe writes a PING frame,
so the write list of the rejected call is not empty. -/
theorem runWorkflow_busy_writes_ping :
    (runWorkflowCall busyClient "run-2" "yaml").2.2 = .busyRejected ∧
    (runWorkflowCall busyClient "run-2" "yaml").2.1.filter Effect.isWrite
      = [.writeOut .ping] ∧
    ¬ (runWorkflowCall busyClient "run-2" "yaml").2.1.filter Effect.isWrite
      = [] := by
  refine ⟨by decide, by decide, by decide⟩

/-- Claim C1, amended: while a PendingRun exists, a second `runWorkflow`
call rejects with the busy error and never writes a run request frame for
the rejected call — the only write it performs is the PING frame of its
preliminary liveness probe — and the pending run is left untouched. -/
theorem runWorkflow_busy_rejects_without_run_request :
    ∀ (s : ClientState) (cid yaml : String),
      s.childAlive = true → s.stdinWritable = true →
      s.pendingPings = [] →
      s.activeRun.isSome →
      (runWorkflowCall s cid yaml).2.2 = .busyRejected ∧
      (runWorkflowCall s cid yaml).2.1.filter Effect.isWrite
        = [.writeOut .ping] ∧
      (∀ c y, Effect.writeOut (.runWorkflow c y) ∉ (runWorkflowCall s cid yaml).2.1) ∧
      (runWorkflowCall s cid yaml).1.activeRun = s.activeRun := by
  intro s cid yaml ha hw hp hrun
  have hcall : runWorkflowCall s cid yaml =
      ({s with pendingPings := [], nextPingId := s.nextPingId + 1},
       [.writeOut .ping, .resolvePing s.nextPingId], .busyRejected) := by
    simp [runWorkflowCall, pingCall, sendMessage, ha, hw, hp, handleMessage, hrun]
  refine ⟨by rw [hcall], by rw [hcall]; rfl, ?_, by rw [hcall]⟩
  intro c y
  rw [hcall]
  simp [Effect.isWrite]

theorem runWorkflow_busy_rejects_without_run_request_witness :
    (runWorkflowCall busyClient "run-3" "y").2.2 = .busyRejected ∧
    (runWorkflowCall busyClient "run-3" "y").2.1.filter Effect.isWrite
      = [.writeOut .ping] ∧
    (∀ c y, Effect.writeOut (.runWorkflow c y)
      ∉ (runWorkflowCall busyClient "run-3" "y").2.1) ∧
    (runWorkflowCall busyClient "run-3" "y").1.activeRun
      = busyClient.activeRun := by
  exact runWorkflow_busy_rejects_without_run_request busyClient "run-3" "y"
    (by decide) (by decide) (by decide) (by decide)

/-- The PONG arm consumes the queue head and resolves it if it was not
settled yet; iterating, `n` replies consume the first `n` queue entries in
order, each unsettled one emitting its resolution. -/
theorem processPongs_spec :
    ∀ (n : Nat) (s : ClientState),
      (processPongs s n).2 =
        (s.pendingPings.take n).filterMap (fun p =>
          if p.settledAs.isNone then some (Effect.resolvePing p.pid) else none) ∧
      (processPongs s n).1 = {s with pendingPings := s.pendingPings.drop n} := by
  intro n
  induction n with
  | zero => intro s; exact ⟨rfl, rfl⟩
  | succ n ih =>
      intro s
      match hq : s.pendingPings with
      | [] =>
          have h1 : handleMessage s (.msg .pong) = (s, []) := by
            simp [handleMessage, hq]
          constructor
          · simp [processPongs, h1, (ih s).1, hq]
          · simp [processPongs, h1, (ih s).2, hq]
      | p :: rest =>
          have h1 : handleMessage s (.msg .pong) =
              ({s with pendingPings := rest},
               if p.settledAs.isNone then [Effect.resolvePing p.pid] else []) := by
            simp [handleMessage, hq]
          have ihr := ih {s with pendingPings := rest}
          constructor
          · simp only [processPongs, h1, ihr.1, hq, List.take_succ_cons,
              List.filterMap_cons]
            cases hset : p.settledAs <;> simp [hset]
          · simp [processPongs, h1, ihr.2, hq]

/-- On a queue of unsettled pings, the resolve filter is just the map. -/
theorem filterMap_resolve_of_unsettled :
    ∀ l : List PendingPing, (∀ p ∈ l, p.settledAs = none) →
      l.filterMap (fun p =>
        if p.settledAs.isNone then some (Effect.resolvePing p.pid) else none)
      = l.map fun p => Effect.resolvePing p.pid := by
  intro l h
  induction l with
  | nil => rfl
  | cons p rest ih =>
      have hp := h p (List.mem_cons_self p rest)
      have ih2 := ih fun q hq => h q (List.mem_cons_of_mem p hq)
      simp only [List.filterMap_cons, hp, Option.isNone_none, if_true,
        List.map_cons, ih2]

/-- The first component returned by `pingCall` appends one fresh unsettled
entry at the tail of the FIFO queue, whether or not the write succeeds. -/
theorem pingCall_enqueues_tail :
    ∀ s : ClientState,
      (pingCall s).1 =
        {s with pendingPings := s.pendingPings ++ [⟨s.nextPingId, none⟩],
                nextPingId := s.nextPingId + 1} := by
  intro s
  cases hm : sendMessage
      {s with pendingPings := s.pendingPings ++ [⟨s.nextPingId, none⟩],
              nextPingId := s.nextPingId + 1} .ping <;>
    simp [pingCall, hm]

/-- Claim C5: liveness probes are settled strictly in issue order. Each
`ping` call enqueues at the tail; for two probes issued before any reply
arrives, after the replies owed to the earlier queue entries, the next two
replies settle exactly those two probes, in the order they were issued,
however many probes are outstanding. -/
theorem pong_settles_probes_in_fifo_order :
    ∀ s : ClientState,
      (∀ p ∈ s.pendingPings, p.settledAs = none) →
      (pingCall (pingCall s).1).1.pendingPings =
        s.pendingPings ++ [⟨s.nextPingId, none⟩, ⟨s.nextPingId + 1, none⟩] ∧
      (processPongs (pingCall (pingCall s).1).1 (s.pendingPings.length + 2)).2 =
        (s.pendingPings.map fun p => Effect.resolvePing p.pid)
          ++ [Effect.resolvePing s.nextPingId,
              Effect.resolvePing (s.nextPingId + 1)] ∧
      (processPongs (pingCall (pingCall s).1).1
          (s.pendingPings.length + 2)).1.pendingPings = [] := by
  intro s hun
  have hq : (pingCall (pingCall s).1).1.pendingPings =
      s.pendingPings ++ [⟨s.nextPingId, none⟩, ⟨s.nextPingId + 1, none⟩] := by
    rw [pingCall_enqueues_tail, pingCall_enqueues_tail]
    simp
  have hlen : s.pendingPings.length + 2 =
      (s.pendingPings ++
        [(⟨s.nextPingId, none⟩ : PendingPing), ⟨s.nextPingId + 1, none⟩]).length := by
    simp
  have hall : ∀ p ∈ s.pendingPings ++
      [(⟨s.nextPingId, none⟩ : PendingPing), ⟨s.nextPingId + 1, none⟩],
      p.settledAs = none := by
    intro p hp
    rcases List.mem_append.mp hp with h | h
    · exact hun p h
    · simp only [List.mem_cons, List.not_mem_nil, or_false] at h
      rcases h with h | h <;> simp [h]
  have hspec := processPongs_spec (s.pendingPings.length + 2)
      (pingCall (pingCall s).1).1
  refine ⟨hq, ?_, ?_⟩
  · rw [hspec.1, hq, hlen, List.take_length,
      filterMap_resolve_of_unsettled _ hall]
    simp
  · rw [hspec.2]
    simp only [hq, hlen]
    rw [List.drop_length]

theorem pong_settles_probes_in_fifo_order_witness :
    (pingCall (pingCall readyClient).1).1.pendingPings =
      [⟨0, none⟩, ⟨1, none⟩] ∧
    (processPongs (pingCall (pingCall readyClient).1).1 2).2 =
      [Effect.resolvePing 0, Effect.resolvePing 1] ∧
    (processPongs (pingCall (pingCall readyClient).1).1 2).1.pendingPings
      = [] := by
  have h := pong_settles_probes_in_fifo_order readyClient (by decide)
  simpa [readyClient] using h

/-- Claim C6: when a pending probe timeout fires, exactly that queue
entry is rejected and every other entry is untouched; afterwards the reply
arriving at the timed-out entry position settles nothing (its promise is
already settled), and each probe enqueued behind it is still settled by
the reply at its own queue position. -/
theorem ping_timeout_rejects_only_that_entry :
    ∀ (s : ClientState) (before after : List PendingPing) (a : PendingPing)
      (k : Nat),
      s.pendingPings = before ++ a :: after →
      (∀ p ∈ s.pendingPings, p.settledAs = none) →
      (∀ p ∈ before, p.pid ≠ a.pid) →
      (∀ p ∈ after, p.pid ≠ a.pid) →
      (pingTimeoutFires s a.pid).2 =
        [Effect.rejectPing a.pid .livenessTimeout] ∧
      (pingTimeoutFires s a.pid).1.pendingPings =
        before ++ {a with settledAs := some .timedOut} :: after ∧
      (processPongs (pingTimeoutFires s a.pid).1 (before.length + (k + 1))).2 =
        (before.map fun p => Effect.resolvePing p.pid)
          ++ ((after.take k).map fun p => Effect.resolvePing p.pid) := by
  intro s before after a k hq hun hbefore hafterpid
  have hanone : a.settledAs = none := by
    refine hun a ?_
    rw [hq]
    exact List.mem_append_right before (List.mem_cons_self a after)
  have hafter : ∀ p ∈ after, p.settledAs = none := by
    intro p hp
    refine hun p ?_
    rw [hq]
    exact List.mem_append_right before (List.mem_cons_of_mem a hp)
  have hbef : ∀ p ∈ before, p.settledAs = none := by
    intro p hp
    refine hun p ?_
    rw [hq]
    exact List.mem_append_left _ hp
  have hfire2 : (pingTimeoutFires s a.pid).2 =
      [Effect.rejectPing a.pid .livenessTimeout] := by
    have : s.pendingPings.any
        (fun p => p.pid = a.pid && p.settledAs.isNone) = true := by
      refine List.any_eq_true.mpr ⟨a, ?_, by simp [hanone]⟩
      rw [hq]
      exact List.mem_append_right before (List.mem_cons_self a after)
    simp [pingTimeoutFires, this]
  have hmapbef : before.map (fun p =>
      if p.pid = a.pid && p.settledAs.isNone
      then {p with settledAs := some PingOutcome.timedOut} else p) = before := by
    have hcg : ∀ p ∈ before, (if p.pid = a.pid && p.settledAs.isNone
        then ({p with settledAs := some PingOutcome.timedOut} : PendingPing)
        else p) = (fun q : PendingPing => q) p := by
      intro p hp
      simp [hbefore p hp]
    rw [List.map_congr_left hcg]
    simp
  have hmapaft : after.map (fun p =>
      if p.pid = a.pid && p.settledAs.isNone
      then {p with settledAs := some PingOutcome.timedOut} else p) = after := by
    have hcg : ∀ p ∈ after, (if p.pid = a.pid && p.settledAs.isNone
        then ({p with settledAs := some PingOutcome.timedOut} : PendingPing)
        else p) = (fun q : PendingPing => q) p := by
      intro p hp
      simp [hafterpid p hp]
    rw [List.map_congr_left hcg]
    simp
  have hfire1 : (pingTimeoutFires s a.pid).1.pendingPings =
      before ++ {a with settledAs := some PingOutcome.timedOut} :: after := by
    simp only [pingTimeoutFires, hq, List.map_append, List.map_cons]
    rw [hmapbef, hmapaft]
    simp [hanone]
  refine ⟨hfire2, hfire1, ?_⟩
  have hspec := processPongs_spec (before.length + (k + 1))
      (pingTimeoutFires s a.pid).1
  rw [hspec.1, hfire1, List.take_append, List.take_succ_cons]
  rw [List.filterMap_append, List.filterMap_cons]
  simp only [Option.isNone_some, Bool.false_eq_true, if_false]
  rw [filterMap_resolve_of_unsettled before hbef,
      filterMap_resolve_of_unsettled _
        fun p hp => hafter p (List.mem_of_mem_take hp)]

theorem ping_timeout_rejects_only_that_entry_witness :
    (pingTimeoutFires
      {readyClient with pendingPings := [⟨0, none⟩, ⟨1, none⟩, ⟨2, none⟩]} 1).2
      = [Effect.rejectPing 1 .livenessTimeout] ∧
    (pingTimeoutFires
      {readyClient with pendingPings := [⟨0, none⟩, ⟨1, none⟩, ⟨2, none⟩]} 1).1.pendingPings
      = [⟨0, none⟩, ⟨1, some .timedOut⟩, ⟨2, none⟩] ∧
    (processPongs (pingTimeoutFires
      {readyClient with pendingPings := [⟨0, none⟩, ⟨1, none⟩, ⟨2, none⟩]} 1).1 3).2
      = [Effect.resolvePing 0, Effect.resolvePing 2] := by
  have h := ping_timeout_rejects_only_that_entry
    {readyClient with pendingPings := [⟨0, none⟩, ⟨1, none⟩, ⟨2, none⟩]}
    [⟨0, none⟩] [⟨2, none⟩] ⟨1, none⟩ 1
    (by decide) (by decide) (by decide) (by decide)
  exact ⟨h.1, h.2.1, h.2.2⟩

/-- Claim C4: on process exit, and likewise on a process-level error, the
in-flight run (if any) is rejected with a transport error, every pending
liveness probe and every pending chat request is rejected, the registries
are emptied and the partial-line buffer is discarded; and a freshly
constructed handle then runs a workflow normally (spawn, READY, run
request written, run pending). -/
theorem process_exit_rejects_and_clears_all :
    ∀ (s : ClientState) (message : String),
      (∀ p ∈ s.pendingPings, p.settledAs = none) →
      ((∀ run, s.activeRun = some run →
          Effect.rejectRun (.transport "Engine process exited before completion.")
            ∈ (onProcessExit s).2) ∧
       (∀ p ∈ s.pendingPings,
          Effect.rejectPing p.pid (.transport "Engine process exited.")
            ∈ (onProcessExit s).2) ∧
       (∀ c ∈ s.pendingChats,
          Effect.rejectChat c (.transport "Engine process exited.")
            ∈ (onProcessExit s).2) ∧
       (onProcessExit s).1.activeRun = none ∧
       (onProcessExit s).1.pendingPings = [] ∧
       (onProcessExit s).1.pendingChats = [] ∧
       (onProcessExit s).1.stdoutBuffer = []) ∧
      ((∀ run, s.activeRun = some run →
          Effect.rejectRun (.transport ("Engine process failed: " ++ message))
            ∈ (onProcessError s message).2) ∧
       (∀ p ∈ s.pendingPings,
          Effect.rejectPing p.pid (.transport "Engine process exited.")
            ∈ (onProcessError s message).2) ∧
       (∀ c ∈ s.pendingChats,
          Effect.rejectChat c (.transport "Engine process exited.")
            ∈ (onProcessError s message).2) ∧
       (onProcessError s message).1.activeRun = none ∧
       (onProcessError s message).1.pendingPings = [] ∧
       (onProcessError s message).1.pendingChats = [] ∧
       (onProcessError s message).1.stdoutBuffer = []) ∧
      (∀ cid yaml : String,
        ∃ s1, ensureStarted freshClient = .ok s1 ∧
          (runWorkflowCall (handleMessage s1 (.msg (.ready none))).1 cid yaml).2.2
            = .pending ∧
          Effect.writeOut (.runWorkflow cid yaml)
            ∈ (runWorkflowCall (handleMessage s1 (.msg (.ready none))).1 cid yaml).2.1) := by
  intro s message hun
  have hteardown : ∀ t : ClientState,
      ((∀ p ∈ t.pendingPings, p.settledAs = none) →
        ∀ p ∈ t.pendingPings,
          Effect.rejectPing p.pid (.transport "Engine process exited.")
            ∈ (teardown t).2) ∧
      (∀ c ∈ t.pendingChats,
        Effect.rejectChat c (.transport "Engine process exited.")
          ∈ (teardown t).2) ∧
      (teardown t).1.activeRun = t.activeRun ∧
      (teardown t).1.pendingPings = [] ∧
      (teardown t).1.pendingChats = [] ∧
      (teardown t).1.stdoutBuffer = [] := by
    intro t
    refine ⟨?_, ?_, rfl, rfl, rfl, rfl⟩
    · intro htun p hp
      simp only [teardown, List.mem_append]
      left; right
      exact List.mem_filterMap.mpr ⟨p, hp, by simp [htun p hp]⟩
    · intro c hc
      simp only [teardown, List.mem_append]
      right
      exact List.mem_map.mpr ⟨c, hc, rfl⟩
  constructor
  · match hr : s.activeRun with
    | some run =>
        have hx : onProcessExit s =
            ((teardown {s with activeRun := none}).1,
             [Effect.rejectRun
                (.transport "Engine process exited before completion.")]
              ++ (teardown {s with activeRun := none}).2) := by
          simp [onProcessExit, hr]
        have ht := hteardown {s with activeRun := none}
        refine ⟨?_, ?_, ?_, ?_, ?_, ?_, ?_⟩
        · intro run2 _
          rw [hx]
          exact List.mem_append_left _ (List.mem_singleton.mpr rfl)
        · intro p hp
          rw [hx]
          exact List.mem_append_right _ (ht.1 hun p hp)
        · intro c hc
          rw [hx]
          exact List.mem_append_right _ (ht.2.1 c hc)
        · rw [hx]; exact ht.2.2.1
        · rw [hx]; exact ht.2.2.2.1
        · rw [hx]; exact ht.2.2.2.2.1
        · rw [hx]; exact ht.2.2.2.2.2
    | none =>
        have hx : onProcessExit s = ((teardown s).1, (teardown s).2) := by
          simp [onProcessExit, hr]
        have ht := hteardown s
        refine ⟨?_, ?_, ?_, ?_, ?_, ?_, ?_⟩
        · intro run2 hr2
          cases hr2
        · intro p hp
          rw [hx]
          exact ht.1 hun p hp
        · intro c hc
          rw [hx]
          exact ht.2.1 c hc
        · rw [hx, ht.2.2.1, hr]
        · rw [hx]; exact ht.2.2.2.1
        · rw [hx]; exact ht.2.2.2.2.1
        · rw [hx]; exact ht.2.2.2.2.2
  constructor
  · match hr : s.activeRun with
    | some run =>
        have hx : onProcessError s message =
            ((teardown {s with activeRun := none}).1,
             [Effect.logLine ("Engine process error: " ++ message)]
              ++ ([Effect.rejectRun
                    (.transport ("Engine process failed: " ++ message))]
                  ++ (teardown {s with activeRun := none}).2)) := by
          simp [onProcessError, hr]
        have ht := hteardown {s with activeRun := none}
        refine ⟨?_, ?_, ?_, ?_, ?_, ?_, ?_⟩
        · intro run2 _
          rw [hx]
          exact List.mem_append_right _
            (List.mem_append_left _ (List.mem_singleton.mpr rfl))
        · intro p hp
          rw [hx]
          exact List.mem_append_right _
            (List.mem_append_right _ (ht.1 hun p hp))
        · intro c hc
          rw [hx]
          exact List.mem_append_right _
            (List.mem_append_right _ (ht.2.1 c hc))
        · rw [hx]; exact ht.2.2.1
        · rw [hx]; exact ht.2.2.2.1
        · rw [hx]; exact ht.2.2.2.2.1
        · rw [hx]; exact ht.2.2.2.2.2
    | none =>
        have hx : onProcessError s message =
            ((teardown s).1,
             [Effect.logLine ("Engine process error: " ++ message)]
              ++ ([] ++ (teardown s).2)) := by
          simp [onProcessError, hr]
        have ht := hteardown s
        refine ⟨?_, ?_, ?_, ?_, ?_, ?_, ?_⟩
        · intro run2 hr2
          cases hr2
        · intro p hp
          rw [hx]
          exact List.mem_append_right _
            (List.mem_append_right _ (ht.1 hun p hp))
        · intro c hc
          rw [hx]
          exact List.mem_append_right _
            (List.mem_append_right _ (ht.2.1 c hc))
        · rw [hx, ht.2.2.1, hr]
        · rw [hx]; exact ht.2.2.2.1
        · rw [hx]; exact ht.2.2.2.2.1
        · rw [hx]; exact ht.2.2.2.2.2
  · intro cid yaml
    refine ⟨_, rfl, rfl, ?_⟩
    simp [runWorkflowCall, handleMessage, pingCall, sendMessage,
      ensureStarted, freshClient]

theorem process_exit_rejects_and_clears_all_witness :
    Effect.rejectRun (.transport "Engine process exited before completion.")
      ∈ (onProcessExit
          {busyClient with pendingPings := [⟨0, none⟩], pendingChats := ["c1"]}).2 ∧
    Effect.rejectPing 0 (.transport "Engine process exited.")
      ∈ (onProcessExit
          {busyClient with pendingPings := [⟨0, none⟩], pendingChats := ["c1"]}).2 ∧
    Effect.rejectChat "c1" (.transport "Engine process exited.")
      ∈ (onProcessExit
          {busyClient with pendingPings := [⟨0, none⟩], pendingChats := ["c1"]}).2 ∧
    (onProcessExit
      {busyClient with pendingPings := [⟨0, none⟩], pendingChats := ["c1"]}).1.pendingPings
      = [] := by
  have h := process_exit_rejects_and_clears_all
    {busyClient with pendingPings := [⟨0, none⟩], pendingChats := ["c1"]}
    "boom" (by decide)
  exact ⟨h.1.1 ⟨"run-1", none, false⟩ (by decide),
         h.1.2.1 ⟨0, none⟩ (by decide),
         h.1.2.2.1 "c1" (by decide),
         h.1.2.2.2.2.1⟩

/-- Processing a sequence of matching PROGRESS messages reports exactly
the increments described by `incsFrom`, starting at the run's `lastPct`. -/
theorem processMessages_progress_incs :
    ∀ (ps : List Int) (s : ClientState) (run : PendingRun),
      s.activeRun = some run →
      reportedIncrements
        (processMessages s (ps.map fun p => progressMsg run.correlationId p)).2
        = incsFrom run.lastPct ps := by
  intro ps
  induction ps with
  | nil => intro s run _; rfl
  | cons p rest ih =>
      intro s run hr
      have hstep : handleMessage s (progressMsg run.correlationId p) =
          ({s with activeRun := some {run with lastPct := some p}},
           [.progressReport "Working..."
              (if 0 ≤ p ∧ p ≤ 100
               then some (jsMax 0 (p - run.lastPct.getD 0)) else none)]) := by
        simp [handleMessage, progressMsg, hr]
      have ih2 := ih {s with activeRun := some {run with lastPct := some p}}
        {run with lastPct := some p} rfl
      simp only [List.map_cons, processMessages, hstep]
      simp only [reportedIncrements, List.filterMap_append] at ih2 ⊢
      rw [ih2]
      by_cases hin : 0 ≤ p ∧ p ≤ 100 <;> simp [hin, incsFrom]

/-- Every increment produced by `incsFrom` is non-negative. -/
theorem incsFrom_nonneg :
    ∀ (ps : List Int) (last : Option Int) (i : Int),
      i ∈ incsFrom last ps → 0 ≤ i := by
  intro ps
  induction ps with
  | nil => intro last i hi; cases hi
  | cons p rest ih =>
      intro last i hi
      simp only [incsFrom, List.mem_append] at hi
      rcases hi with hi | hi
      · rcases Classical.em (0 ≤ p ∧ p ≤ 100) with hin | hin
        · rw [if_pos hin, List.mem_singleton] at hi
          rw [hi, jsMax]
          split
          · assumption
          · exact le_refl 0
        · rw [if_neg hin] at hi
          cases hi
      · exact ih (some p) i hi

/-- From a known last percentage `q`, a nondecreasing in-range sequence
contributes at most `100 - q`. -/
theorem incsFrom_sum_le :
    ∀ (ps : List Int) (q : Int),
      0 ≤ q → q ≤ 100 →
      (∀ p ∈ ps, 0 ≤ p ∧ p ≤ 100) →
      nondecreasing (q :: ps) = true →
      (incsFrom (some q) ps).sum ≤ 100 - q := by
  intro ps
  induction ps with
  | nil =>
      intro q _ hq2 _ _
      simp [incsFrom]
      omega
  | cons p rest ih =>
      intro q hq1 hq2 hin hmono
      have hqp : q ≤ p ∧ nondecreasing (p :: rest) = true := by
        have := hmono
        simp only [nondecreasing, Bool.and_eq_true, decide_eq_true_eq] at this
        rcases rest with _ | ⟨r, rs⟩
        · simpa [nondecreasing] using this
        · exact ⟨this.1, this.2⟩
      have hp := hin p (List.mem_cons_self p rest)
      have hrest := ih p hp.1 hp.2
        (fun r hr => hin r (List.mem_cons_of_mem p hr)) hqp.2
      simp only [incsFrom, if_pos hp, List.sum_append, List.sum_cons,
        List.sum_nil, add_zero, Option.getD_some]
      have hmaxeq : jsMax 0 (p - q) = p - q := by
        rw [jsMax, if_pos]
        omega
      rw [hmaxeq]
      omega

/-- Claim C2, counterexample: for the pending run of `busyClient`, the
matching percentage sequence 100, 0, 100 makes the client report the
increments 100, 0, 100 — each equals max(0, newPct - lastPct), but their
running sum is 200, which exceeds 100. -/
theorem progress_increment_sum_exceeds_100 :
    reportedIncrements (processMessages busyClient
      [progressMsg "run-1" 100, progressMsg "run-1" 0,
       progressMsg "run-1" 100]).2 = [100, 0, 100] ∧
    ¬ (reportedIncrements (processMessages busyClient
      [progressMsg "run-1" 100, progressMsg "run-1" 0,
       progressMsg "run-1" 100]).2).sum ≤ 100 := by
  refine ⟨by decide, by decide⟩

/-- Claim C2, amended: for a run whose progress starts unset, every
increment reported to the progress sink is max(0, newPct - lastPct) and
hence ≥ 0; and provided the matching percentage sequence is nondecreasing
and stays within [0, 100], the running sum of the reported increments
never exceeds 100. -/
theorem progress_increments_nonneg_and_bounded :
    ∀ (s : ClientState) (run : PendingRun) (ps : List Int),
      s.activeRun = some run → run.lastPct = none →
      (∀ i ∈ reportedIncrements
          (processMessages s (ps.map fun p => progressMsg run.correlationId p)).2,
        0 ≤ i) ∧
      ((∀ p ∈ ps, 0 ≤ p ∧ p ≤ 100) → nondecreasing ps = true →
        (reportedIncrements
          (processMessages s (ps.map fun p => progressMsg run.correlationId p)).2).sum
          ≤ 100) := by
  intro s run ps hr hlast
  rw [processMessages_progress_incs ps s run hr, hlast]
  constructor
  · exact fun i hi => incsFrom_nonneg ps none i hi
  · intro hin hmono
    match ps, hin, hmono with
    | [], _, _ => simp [incsFrom]
    | p :: rest, hin, hmono =>
        have hp := hin p (List.mem_cons_self p rest)
        have hrest := incsFrom_sum_le rest p hp.1 hp.2
          (fun r hrm => hin r (List.mem_cons_of_mem p hrm)) hmono
        simp only [incsFrom, if_pos hp, List.sum_append, List.sum_cons,
          List.sum_nil, add_zero, Option.getD_none]
        have hmaxeq : jsMax 0 (p - 0) = p := by
          rw [jsMax, if_pos]
          · omega
          · omega
        rw [hmaxeq]
        omega

theorem progress_increments_nonneg_and_bounded_witness :
    (∀ i ∈ reportedIncrements (processMessages busyClient
        [progressMsg "run-1" 30, progressMsg "run-1" 60]).2, 0 ≤ i) ∧
    (reportedIncrements (processMessages busyClient
        [progressMsg "run-1" 30, progressMsg "run-1" 60]).2).sum ≤ 100 := by
  have h := progress_increments_nonneg_and_bounded busyClient
    ⟨"run-1", none, false⟩ [30, 60] (by decide) (by decide)
  exact ⟨h.1, h.2 (by decide) (by decide)⟩

/-- Reinserting the terminators after the split reassembles the buffer. -/
theorem processBuffer_reassemble :
    ∀ buf : List Char,
      ((processBuffer buf).1.map fun l => l ++ ['\n']).flatten
        ++ (processBuffer buf).2 = buf := by
  intro buf
  induction buf with
  | nil => rfl
  | cons c cs ih =>
      by_cases hc : c = '\n'
      · subst hc
        simp only [processBuffer, eq_self_iff_true, if_true, List.map_cons,
          List.flatten_cons, List.nil_append, List.singleton_append,
          List.cons_append]
        rw [ih]
      · cases hp : (processBuffer cs).1 with
        | nil =>
            have h2 : processBuffer (c :: cs) = ([], c :: (processBuffer cs).2) := by
              simp [processBuffer, hc, hp]
            rw [h2]
            rw [hp] at ih
            simp only [List.map_nil, List.flatten_nil, List.nil_append] at ih ⊢
            rw [ih]
        | cons l ls =>
            have h2 : processBuffer (c :: cs)
                = ((c :: l) :: ls, (processBuffer cs).2) := by
              simp [processBuffer, hc, hp]
            rw [h2]
            rw [hp] at ih
            simp only [List.map_cons, List.flatten_cons, List.cons_append,
              List.append_assoc, List.singleton_append] at ih ⊢
            rw [ih]

/-- The unterminated remainder never contains a line terminator. -/
theorem processBuffer_rem_no_newline :
    ∀ buf : List Char, '\n' ∉ (processBuffer buf).2 := by
  intro buf
  induction buf with
  | nil => simp [processBuffer]
  | cons c cs ih =>
      by_cases hc : c = '\n'
      · subst hc
        simpa [processBuffer] using ih
      · cases hp : (processBuffer cs).1 with
        | nil =>
            have h2 : processBuffer (c :: cs) = ([], c :: (processBuffer cs).2) := by
              simp [processBuffer, hc, hp]
            rw [h2]
            intro hmem
            rcases List.mem_cons.mp hmem with h | h
            · exact hc h.symm
            · exact ih h
        | cons l ls =>
            have h2 : processBuffer (c :: cs)
                = ((c :: l) :: ls, (processBuffer cs).2) := by
              simp [processBuffer, hc, hp]
            rw [h2]
            exact ih

/-- A buffer without a terminator yields no line and stays put. -/
theorem processBuffer_no_newline :
    ∀ a : List Char, '\n' ∉ a → processBuffer a = ([], a) := by
  intro a
  induction a with
  | nil => intro _; rfl
  | cons c cs ih =>
      intro h
      have hc : ¬ c = '\n' := fun hh => h (by rw [hh]; exact List.mem_cons_self _ _)
      have hcs : '\n' ∉ cs := fun hh => h (List.mem_cons_of_mem c hh)
      simp [processBuffer, hc, ih hcs]

/-- Splitting a concatenation equals splitting the first part and feeding
its remainder into the second. -/
theorem processBuffer_append :
    ∀ a b : List Char,
      processBuffer (a ++ b) =
        ((processBuffer a).1 ++ (processBuffer ((processBuffer a).2 ++ b)).1,
         (processBuffer ((processBuffer a).2 ++ b)).2) := by
  intro a
  induction a with
  | nil => intro b; simp [processBuffer]
  | cons c cs ih =>
      intro b
      by_cases hc : c = '\n'
      · subst hc
        rw [List.cons_append]
        simp only [processBuffer, if_pos rfl]
        rw [ih b]
        simp
      · cases hp : (processBuffer cs).1 with
        | nil =>
            have hrem : (processBuffer cs).2 = cs := by
              have hre := processBuffer_reassemble cs
              rw [hp] at hre
              simpa using hre
            have h2 : processBuffer (c :: cs) = ([], c :: cs) := by
              simp [processBuffer, hc, hp, hrem]
            rw [List.cons_append, h2]
            simp only [List.nil_append]
            rfl
        | cons l ls =>
            have h2 : processBuffer (c :: cs)
                = ((c :: l) :: ls, (processBuffer cs).2) := by
              simp [processBuffer, hc, hp]
            have h3 : processBuffer (c :: (cs ++ b)) =
                ((c :: l) :: (ls ++ (processBuffer ((processBuffer cs).2 ++ b)).1),
                 (processBuffer ((processBuffer cs).2 ++ b)).2) := by
              simp [processBuffer, hc, ih b, hp]
            rw [List.cons_append, h3, h2]
            simp

/-- A clean line followed by a terminator is split off whole. -/
theorem processBuffer_line :
    ∀ (l rest : List Char), '\n' ∉ l →
      processBuffer (l ++ '\n' :: rest) =
        (l :: (processBuffer rest).1, (processBuffer rest).2) := by
  intro l
  induction l with
  | nil =>
      intro rest _
      simp [processBuffer]
  | cons c cs ih =>
      intro rest h
      have hc : ¬ c = '\n' := fun hh => h (by rw [hh]; exact List.mem_cons_self _ _)
      have hcs : '\n' ∉ cs := fun hh => h (List.mem_cons_of_mem c hh)
      simp [processBuffer, hc, ih rest hcs]

/-- Feeding a concatenation of two chunks equals feeding them in turn. -/
theorem feedFrame_append :
    ∀ (fr : FrameReader) (c1 c2 : List Char),
      feedFrame fr (c1 ++ c2) =
        ((feedFrame (feedFrame fr c1).1 c2).1,
         (feedFrame fr c1).2 ++ (feedFrame (feedFrame fr c1).1 c2).2) := by
  intro fr c1 c2
  simp only [feedFrame]
  rw [← List.append_assoc, processBuffer_append (fr.buffer ++ c1) c2]
  simp [List.filter_append]

/-- Feeding chunks one at a time equals feeding their concatenation. -/
theorem feedAll_eq_flatten :
    ∀ (chunks : List (List Char)) (fr : FrameReader),
      '\n' ∉ fr.buffer →
      feedAll fr chunks = feedFrame fr chunks.flatten := by
  intro chunks
  induction chunks with
  | nil =>
      intro fr h
      simp [feedAll, feedFrame, processBuffer_no_newline fr.buffer h]
  | cons c cs ih =>
      intro fr _
      have hnext : '\n' ∉ (feedFrame fr c).1.buffer := by
        simp only [feedFrame]
        exact processBuffer_rem_no_newline _
      simp only [feedAll, List.flatten_cons]
      rw [ih (feedFrame fr c).1 hnext, feedFrame_append]

/-- Trimming and the non-empty filter are the identity on clean lines. -/
theorem yields_of_clean :
    ∀ ls : List (List Char),
      (∀ l ∈ ls, trimChars l = l ∧ l ≠ []) →
      (ls.map trimChars).filter (fun l => !l.isEmpty) = ls := by
  intro ls
  induction ls with
  | nil => intro _; rfl
  | cons l rest ih =>
      intro h
      have hl := h l (List.mem_cons_self l rest)
      have ih2 := ih fun x hx => h x (List.mem_cons_of_mem l hx)
      have hne : (!l.isEmpty) = true := by
        cases l with
        | nil => exact absurd rfl hl.2
        | cons a as => rfl
      simp only [List.map_cons, List.filter_cons, hl.1, hne, if_pos]
      rw [ih2]

/-- One feed of a whole clean stream reassembles it exactly. -/
theorem feedFrame_reassemble_of_clean :
    ∀ stream : List Char,
      (∀ l ∈ (processBuffer stream).1, trimChars l = l ∧ l ≠ []) →
      ((feedFrame ⟨[]⟩ stream).2.map fun l => l ++ ['\n']).flatten
        ++ (feedFrame ⟨[]⟩ stream).1.buffer = stream ∧
      '\n' ∉ (feedFrame ⟨[]⟩ stream).1.buffer := by
  intro stream h
  constructor
  · simp only [feedFrame, List.nil_append]
    rw [yields_of_clean _ h]
    exact processBuffer_reassemble stream
  · simp only [feedFrame, List.nil_append]
    exact processBuffer_rem_no_newline stream

/-- Claim C8, counterexample: the frame reader trims the lines it yields,
so a stream whose line carries surrounding whitespace is not reassembled
by reinserting terminators — bytes are dropped. -/
theorem frame_reader_drops_whitespace :
    (feedFrame ⟨[]⟩ (' ' :: 'a' :: ' ' :: '\n' :: [])).2 = [['a']] ∧
    ¬ (((feedFrame ⟨[]⟩ (' ' :: 'a' :: ' ' :: '\n' :: [])).2.map
          fun l => l ++ ['\n']).flatten
        ++ (feedFrame ⟨[]⟩ (' ' :: 'a' :: ' ' :: '\n' :: [])).1.buffer
      = ' ' :: 'a' :: ' ' :: '\n' :: []) := by
  refine ⟨by decide, by decide⟩

/-- Claim C8, amended: for every partition of a byte stream into chunks,
provided every complete line of the stream is already trimmed and
non-empty, the concatenation of the yielded lines with terminators
reinserted, followed by the buffered remainder, equals the original
stream — no byte is dropped or duplicated — and the unterminated
remainder (which contains no terminator) stays buffered for the next
feed.  In general the reader trims each line and drops blank lines, so
the hypothesis is necessary. -/
theorem frame_reader_reassembly_for_trimmed_streams :
    ∀ chunks : List (List Char),
      (∀ l ∈ (processBuffer chunks.flatten).1, trimChars l = l ∧ l ≠ []) →
      ((feedAll ⟨[]⟩ chunks).2.map fun l => l ++ ['\n']).flatten
          ++ (feedAll ⟨[]⟩ chunks).1.buffer = chunks.flatten ∧
      '\n' ∉ (feedAll ⟨[]⟩ chunks).1.buffer := by
  intro chunks h
  rw [feedAll_eq_flatten chunks ⟨[]⟩ (by simp)]
  exact feedFrame_reassemble_of_clean chunks.flatten h

theorem frame_reader_reassembly_for_trimmed_streams_witness :
    ((feedAll ⟨[]⟩ [['a'], ['b', '\n', 'c', 'd'], ['\n', 'e']]).2.map
        fun l => l ++ ['\n']).flatten
      ++ (feedAll ⟨[]⟩ [['a'], ['b', '\n', 'c', 'd'], ['\n', 'e']]).1.buffer
      = [['a'], ['b', '\n', 'c', 'd'], ['\n', 'e']].flatten ∧
    '\n' ∉ (feedAll ⟨[]⟩ [['a'], ['b', '\n', 'c', 'd'], ['\n', 'e']]).1.buffer := by
  exact frame_reader_reassembly_for_trimmed_streams
    [['a'], ['b', '\n', 'c', 'd'], ['\n', 'e']] (by decide)

/-- Claim C7: inbound line handling is total and recovers from bad lines.
A malformed line (invalid JSON) or a line without a recognised
discriminant only produces a log entry and leaves the whole client state
unchanged; and when a chunk delivers a malformed line followed by a
well-formed completion line for the pending run, the completion still
resolves that run, while the malformed line is logged and has no other
effect. -/
theorem malformed_line_recovery :
    (∀ (s : ClientState) (raw : String),
      handleMessage s (.malformed raw) =
        (s, [.logLine ("Received malformed JSON from engine: " ++ raw)])) ∧
    (∀ (s : ClientState) (raw : String),
      handleMessage s (.unknownType raw) =
        (s, [.logLine ("Received unsupported message type: " ++ raw)])) ∧
    (∀ (parse : List Char → ParsedLine) (s : ClientState) (run : PendingRun)
        (l1 l2 : List Char) (r1 : String) (files : List EngineGeneratedFile),
      s.activeRun = some run → s.stdoutBuffer = [] →
      parse l1 = .malformed r1 →
      parse l2 = .msg (.complete run.correlationId files none none) →
      trimChars l1 = l1 → l1 ≠ [] → '\n' ∉ l1 →
      trimChars l2 = l2 → l2 ≠ [] → '\n' ∉ l2 →
      (onStdoutData parse s (l1 ++ '\n' :: (l2 ++ ['\n']))).1.activeRun = none ∧
      (onStdoutData parse s (l1 ++ '\n' :: (l2 ++ ['\n']))).2 =
        [.logLine ("Received malformed JSON from engine: " ++ r1),
         .resolveRun ⟨files, none, false⟩]) := by
  refine ⟨fun s raw => rfl, fun s raw => rfl, ?_⟩
  intro parse s run l1 l2 r1 files hr hb hp1 hp2 ht1 hn1 hnl1 ht2 hn2 hnl2
  have hpb : processBuffer (l1 ++ '\n' :: (l2 ++ ['\n'])) = ([l1, l2], []) := by
    rw [processBuffer_line l1 _ hnl1, processBuffer_line l2 [] hnl2]
    rfl
  have hyield : feedFrame ⟨s.stdoutBuffer⟩ (l1 ++ '\n' :: (l2 ++ ['\n']))
      = (⟨[]⟩, [l1, l2]) := by
    simp only [feedFrame, hb, List.nil_append, hpb]
    rw [yields_of_clean [l1, l2] ?hclean]
    case hclean =>
      intro l hl
      rcases List.mem_cons.mp hl with h | h
      · rw [h]; exact ⟨ht1, hn1⟩
      · rcases List.mem_cons.mp h with h2 | h2
        · rw [h2]; exact ⟨ht2, hn2⟩
        · cases h2
  have hmal : handleMessage {s with stdoutBuffer := []} (.malformed r1) =
      ({s with stdoutBuffer := []},
       [.logLine ("Received malformed JSON from engine: " ++ r1)]) := rfl
  have hcomp : handleMessage {s with stdoutBuffer := []}
      (.msg (.complete run.correlationId files none none)) =
      ({s with stdoutBuffer := [], activeRun := none},
       [.resolveRun ⟨files, none, false⟩]) := by
    simp [handleMessage, hr]
  constructor
  · simp only [onStdoutData, hyield, List.map_cons, List.map_nil, hp1, hp2,
      processMessages, hmal, hcomp]
  · simp only [onStdoutData, hyield, List.map_cons, List.map_nil, hp1, hp2,
      processMessages, hmal, hcomp]
    rfl

theorem malformed_line_recovery_witness :
    (onStdoutData
        (fun l => if l = ['g', 'o', 'o', 'd']
          then .msg (.complete "run-1" [] none none)
          else .malformed "oops")
        busyClient
        (['o', 'o', 'p', 's'] ++ '\n' :: (['g', 'o', 'o', 'd'] ++ ['\n']))).1.activeRun
      = none ∧
    (onStdoutData
        (fun l => if l = ['g', 'o', 'o', 'd']
          then .msg (.complete "run-1" [] none none)
          else .malformed "oops")
        busyClient
        (['o', 'o', 'p', 's'] ++ '\n' :: (['g', 'o', 'o', 'd'] ++ ['\n']))).2 =
      [.logLine ("Received malformed JSON from engine: " ++ "oops"),
       .resolveRun ⟨[], none, false⟩] := by
  exact malformed_line_recovery.2.2
    (fun l => if l = ['g', 'o', 'o', 'd']
      then .msg (.complete "run-1" [] none none)
      else .malformed "oops")
    busyClient ⟨"run-1", none, false⟩
    ['o', 'o', 'p', 's'] ['g', 'o', 'o', 'd'] "oops" []
    (by decide) (by decide) (by decide) (by decide) (by decide) (by decide)
    (by decide) (by decide) (by decide) (by decide)

end WorkflowAgent
